import Mathlib

/-!
Verification of the scrappie matrix engine (`src/scrappie_matrix.c`) and the
sequence encoding of the squiggle driver (`src/scrappie_squiggle.c`).

Modelling conventions:
* C `float` values are modelled as exact rationals (`Rat`); the IEEE NaN
  sentinel used for "unspecified" / "absent" results is modelled by `Option`
  (`none` = NaN).
* A `scrappie_matrix` handle (possibly NULL) is `Option ScrappieMatrix`;
  the struct itself carries `nr`, `nrq`, `nc` and the flat padded scalar
  buffer `data` (column-major, column stride `4*nrq` scalars), exactly the
  dual scalar view `data.f` of the C union.
* `size_t` arithmetic is taken modulo `2^w` where `w` is the platform word
  width (64 on the usual targets); functions that perform size arithmetic
  take `w` as a parameter.
* Heap exhaustion (`malloc`/`calloc` returning NULL) is not modelled:
  allocations are assumed to succeed.  Overflow of the allocation size
  computation *is* modelled, since the code checks for it explicitly.
* C `assert` is active (debug build, `NDEBUG` undefined); an assertion
  failure is modelled as `Except.error ()` where a function's other
  outcomes matter, and as a hypothesis of the theorems elsewhere.
-/

namespace Scrappie

/-- The `scrappie_matrix` struct: logical rows `nr`, row quads `nrq`,
columns `nc`, and the flat padded buffer (`data.f` scalar view), of
`4*nrq*nc` scalars, column-major with column stride `4*nrq`. -/
structure ScrappieMatrix where
  nr : Nat
  nrq : Nat
  nc : Nat
  data : List Rat
deriving DecidableEq

/-- Well-formedness invariant of a matrix produced by the allocator:
positive shape (asserted by `make_scrappie_matrix`), `nrq = ceil(nr/4)`,
and a backing buffer of exactly `nrq*nc` four-wide lane groups. -/
def ScrappieMatrix.wf (m : ScrappieMatrix) : Prop :=
  0 < m.nr ∧ 0 < m.nc ∧ m.nrq = (m.nr + 3) / 4 ∧ m.data.length = 4 * m.nrq * m.nc

instance (m : ScrappieMatrix) : Decidable m.wf := by
  unfold ScrappieMatrix.wf; infer_instance

/-- Flat scalar read of the padded buffer, `mat->data.f[i]` (reads outside
the buffer never occur under `wf` in the theorems below). -/
def ScrappieMatrix.at (m : ScrappieMatrix) (i : Nat) : Rat :=
  m.data.getD i 0

/-- `make_scrappie_matrix(nr, nc)`.  `nrq = (int)ceil(nr/4.0)` (exact for
every non-negative `int`, hence `(nr+3)/4`).  The overflow guard computes
`tmp1 = nrq * sizeof(__m128)` and `tmp2 = tmp1 * nc` in `size_t`
arithmetic (modulo `2^w`) and rejects the request when `tmp1 != 0` and
`tmp2 / tmp1 != nc`.  On success `aligned_alloc` + `memset` yield a
zero-filled buffer of `nrq*nc` lane groups. -/
def makeScrappieMatrix (w nr nc : Nat) : Option ScrappieMatrix :=
  let nrq := (nr + 3) / 4
  let tmp1 := (nrq * 16) % 2 ^ w
  let tmp2 := (tmp1 * nc) % 2 ^ w
  if tmp1 ≠ 0 ∧ tmp2 / tmp1 ≠ nc then
    none
  else
    some ⟨nr, nrq, nc, List.replicate (4 * nrq * nc) 0⟩

/-- `remake_scrappie_matrix(M, nr, nc)`: reuse `M` when it is non-NULL and
already of shape `(nr, nc)`; otherwise free it and allocate afresh. -/
def remakeScrappieMatrix (w : Nat) (M : Option ScrappieMatrix) (nr nc : Nat) :
    Option ScrappieMatrix :=
  match M with
  | none => makeScrappieMatrix w nr nc
  | some m =>
    if m.nr = nr ∧ m.nc = nc then some m
    else makeScrappieMatrix w nr nc

/-- `mat_from_array(x, nr, nc)`: allocate (zero-filled), then per column
`memcpy` the `nr` scalars `x[col*nr .. col*nr+nr)` to offset `col*nrq*4`;
the remaining `4*nrq - nr` padding scalars of each column keep the
allocation's zeros. -/
def matFromArray (w : Nat) (x : List Rat) (nr nc : Nat) : Option ScrappieMatrix :=
  match makeScrappieMatrix w nr nc with
  | none => none
  | some res =>
    some { res with
           data := ((List.range nc).map (fun col =>
             ((x.drop (col * nr)).take nr ++
              List.replicate (4 * res.nrq - nr) 0))).flatten }

/-- `array_from_scrappie_matrix(mat)`: NULL-propagates; otherwise writes
`res[c*nr + r] = mat->data.f[c*nrq*4 + r]` for every `c < nc`, `r < nr`
into a fresh unpadded column-major buffer. -/
def arrayFromScrappieMatrix (mat : Option ScrappieMatrix) : Option (List Rat) :=
  match mat with
  | none => none
  | some m =>
    some (((List.range m.nc).map (fun c =>
      (List.range m.nr).map (fun r => m.at (c * m.nrq * 4 + r)))).flatten)

/-- `equality_scrappie_matrix(mat1, mat2, tol)`: both NULL is equal, one
NULL is unequal, differing `nr`/`nc` is unequal; otherwise scan the logical
elements (offset `c*4*mat1->nrq + r`, `r < nr`) and fail as soon as
`fabsf(a - b) > tol`. -/
def equalityScrappieMatrix (mat1 mat2 : Option ScrappieMatrix) (tol : Rat) : Bool :=
  match mat1, mat2 with
  | none, none => true
  | none, some _ => false
  | some _, none => false
  | some a, some b =>
    if a.nc ≠ b.nc ∨ a.nr ≠ b.nr then false
    else
      (List.range a.nc).all fun c =>
        (List.range a.nr).all fun r =>
          decide (|a.at (c * 4 * a.nrq + r) - b.at (c * 4 * a.nrq + r)| ≤ tol)

/-- The flat padded-buffer offsets `col*nrq*4 + r` of the logical elements,
in the scan order of the reduction kernels: columns ascending, rows
ascending within a column. -/
def logicalIndices (m : ScrappieMatrix) : List Nat :=
  ((List.range m.nc).map (fun col =>
    (List.range m.nr).map (fun r => col * m.nrq * 4 + r))).flatten

/-- `max_scrappie_matrix(x)`: NULL yields `NAN` (modelled `none`);
otherwise fold `if (amax < x->data.f[offset+r]) amax = ...` over the
logical elements in scan order, starting from `amax = x->data.f[0]`. -/
def maxScrappieMatrix (x : Option ScrappieMatrix) : Option Rat :=
  match x with
  | none => none
  | some m =>
    some ((logicalIndices m).foldl
      (fun amax i => if amax < m.at i then m.at i else amax) (m.at 0))

/-- `min_scrappie_matrix(x)`: NULL yields `NAN` (modelled `none`); the scan
is verbatim from the source, whose comparison is `amin < x->data.f[...]`
(the same direction as `max_scrappie_matrix`). -/
def minScrappieMatrix (x : Option ScrappieMatrix) : Option Rat :=
  match x with
  | none => none
  | some m =>
    some ((logicalIndices m).foldl
      (fun amin i => if amin < m.at i then m.at i else amin) (m.at 0))

/-- `argmax_scrappie_matrix(x)`: NULL yields `-1`; otherwise track
`(amax, imax)` from `(x->data.f[0], 0)`, updating on `amax < value`, and
return the flat offset `imax`. -/
def argmaxScrappieMatrix (x : Option ScrappieMatrix) : Int :=
  match x with
  | none => -1
  | some m =>
    (((logicalIndices m).foldl
      (fun p i => if p.1 < m.at i then (m.at i, i) else p) (m.at 0, 0)).2 : Nat)

/-- `argmin_scrappie_matrix(x)`: NULL yields `-1`; the scan is verbatim
from the source, whose update condition is `amin < x->data.f[...]` (the
same direction as `argmax_scrappie_matrix`). -/
def argminScrappieMatrix (x : Option ScrappieMatrix) : Int :=
  match x with
  | none => -1
  | some m =>
    (((logicalIndices m).foldl
      (fun p i => if p.1 < m.at i then (m.at i, i) else p) (m.at 0, 0)).2 : Nat)

/-! ### `row_normalise_inplace`

The kernel computes, per column, the lane-wise sum of all `nrq` lane
groups, subtracts the masked lanes of the *last* group, and horizontally
adds the four lanes.  The mask is built by
`_mm_cmpgt_ps(_mm_set_ps(i>=1, i>=2, i>=3, 0), 0)` with `i = 4*nrq - nr`:
`_mm_set_ps(a,b,c,d)` places `d` in lane 0 and `a` in lane 3, so lane 0 is
never masked and lane `l ∈ {1,2,3}` is masked exactly when `i ≥ 4 - l`. -/

/-- Lane mask of `row_normalise_inplace` for padding count `i = 4*nrq - nr`:
`true` on the lanes of the last lane group that are padding. -/
def rowNormMask (i l : Nat) : Bool :=
  match l with
  | 0 => false
  | 1 => decide (3 ≤ i)
  | 2 => decide (2 ≤ i)
  | _ => decide (1 ≤ i)

/-- Lane `l` of `sum - _mm_and_ps(C->data.v[offset + nrq - 1], mask)` for
column `col`: the lane-wise accumulation over the column's lane groups,
minus the last group's lane when masked. -/
def laneSum (m : ScrappieMatrix) (col l : Nat) : Rat :=
  (∑ row in Finset.range m.nrq, m.at (col * m.nrq * 4 + 4 * row + l)) -
    (if rowNormMask (m.nrq * 4 - m.nr) l then
       m.at (col * m.nrq * 4 + 4 * (m.nrq - 1) + l)
     else 0)

/-- The horizontal double-`hadd` of the masked lane sums: the scalar value
every lane of `tsum` holds for column `col`. -/
def colSum (m : ScrappieMatrix) (col : Nat) : Rat :=
  (laneSum m col 0 + laneSum m col 1) + (laneSum m col 2 + laneSum m col 3)

/-- `row_normalise_inplace(C)`: NULL is a no-op; otherwise every scalar of
every column (padding lanes included) is multiplied by `1.0f / tsum` of
its own column `idx / (nrq*4)`. -/
def rowNormaliseInplace (C : Option ScrappieMatrix) : Option ScrappieMatrix :=
  match C with
  | none => C
  | some m =>
    some { m with
           data := (List.range (4 * m.nrq * m.nc)).map
             (fun idx => m.at idx * (1 / colSum m (idx / (m.nrq * 4)))) }

/-! ### Validators (debug build: `NDEBUG` undefined) -/

/-- `FLT_EPSILON`, the tolerance admitted by the bound checks of
`validate_scrappie_matrix` (and only there): `2^-23`. -/
def fltEpsilon : Rat := 1 / 8388608

/-- `validate_scrappie_matrix(mat, lower, upper, maskval, only_finite)`
(debug branch).  A NaN bound (`none`) skips its check.  Padding scalars
must equal `maskval` exactly; the lower bound fails on
`f + FLT_EPSILON < lower`, the upper bound on `f > upper + FLT_EPSILON`.
The `only_finite` scan can never fail in this rational model (every `Rat`
is finite), so it contributes no failing case here. -/
def validateScrappieMatrix (mat : Option ScrappieMatrix)
    (lower upper maskval : Option Rat) (onlyFinite : Bool) : Bool :=
  match mat with
  | none => false
  | some m =>
    let ld := m.nrq * 4
    (match maskval with
     | none => true
     | some mv =>
       (List.range m.nc).all fun c =>
         (List.range (ld - m.nr)).all fun k =>
           decide (m.at (c * ld + m.nr + k) = mv)) &&
    (onlyFinite || true) &&
    (match lower with
     | none => true
     | some lo =>
       (List.range m.nc).all fun c =>
         (List.range m.nr).all fun r =>
           decide (¬ m.at (c * ld + r) + fltEpsilon < lo)) &&
    (match upper with
     | none => true
     | some up =>
       (List.range m.nc).all fun c =>
         (List.range m.nr).all fun r =>
           decide (¬ m.at (c * ld + r) > up + fltEpsilon))

/-- `validate_vector(vec, n, lower, upper)` (debug branch): NULL fails; a
NaN bound (`none`) skips its check (in IEEE terms `lower > v` and
`upper < v` are false when the bound is NaN); otherwise the comparisons
are exact — fail on `lower > vec[i]`, then on `upper < vec[i]`. -/
def validateVector (vec : Option (List Rat)) (n : Nat)
    (lower upper : Option Rat) : Bool :=
  match vec with
  | none => false
  | some v =>
    (match lower with
     | none => true
     | some lo => (List.range n).all fun i => decide (¬ lo > v.getD i 0)) &&
    (match upper with
     | none => true
     | some up => (List.range n).all fun i => decide (¬ up < v.getD i 0))

/-- `validate_ivector(vec, n, lower, upper)` (debug branch): NULL fails;
both integer bounds are always checked, exactly — fail on
`lower > vec[i]`, then on `upper < vec[i]`. -/
def validateIVector (vec : Option (List Int)) (n : Nat)
    (lower upper : Int) : Bool :=
  match vec with
  | none => false
  | some v =>
    ((List.range n).all fun i => decide (¬ lower > v.getD i 0)) &&
    ((List.range n).all fun i => decide (¬ upper < v.getD i 0))

/-! ### Affine maps -/

/-- Modelled from the spec: the external optimized matrix-multiply
(`cblas_sgemm(CblasColMajor, CblasTrans, CblasNoTrans, M, N, K, 1.0, A,
lda, B, ldb, 1.0, C, ldc)`), an external collaborator of §4.4 — "an
external general matrix-multiply ... in the convention transpose(W) times
X, accumulate into C", with each operand's row pitch its `ld` argument:
`C[i + j*ldc] += sum over k < K of A[k + i*lda] * B[k + j*ldb]` for
`i < M`, `j < N`; every other scalar of `C` is untouched. -/
def cblasSgemmTN (M N K : Nat) (A : List Rat) (lda : Nat) (B : List Rat)
    (ldb : Nat) (Cd : List Rat) (ldc : Nat) : List Rat :=
  (List.range Cd.length).map fun idx =>
    let j := idx / ldc
    let i := idx % ldc
    if i < M ∧ j < N then
      Cd.getD idx 0 + ∑ k in Finset.range K, A.getD (k + i * lda) 0 * B.getD (k + j * ldb) 0
    else Cd.getD idx 0

/-- The bias broadcast of `affine_map` / `affine_map2`: for every column
`c` of `C`, `memcpy(C->data.v + c*C->nrq, b->data.v, C->nrq*sizeof(__m128))`
— the first `4*C.nrq` scalars of `b` (padding lanes included) become
column `c`. -/
def biasBroadcast (b C : ScrappieMatrix) : List Rat :=
  ((List.range C.nc).map (fun _ => b.data.take (4 * C.nrq))).flatten

/-- `affine_map(X, W, b, C)`: `RETURN_NULL_IF(NULL == X)` null-propagates;
`assert(NULL != W)`, `assert(NULL != b)` and `assert(W->nr == X->nr)` are
contract checks (`Except.error ()` = assertion failure); then `C` is
remade to shape `(W->nc, X->nc)` (NULL on allocation failure propagates),
the bias is broadcast, and the external multiply accumulates `Wᵗ·X`. -/
def affineMap (w : Nat) (X W b : Option ScrappieMatrix)
    (C : Option ScrappieMatrix) : Except Unit (Option ScrappieMatrix) :=
  match X with
  | none => .ok none
  | some x =>
    match W, b with
    | some ww, some bb =>
      if ww.nr = x.nr then
        match remakeScrappieMatrix w C ww.nc x.nc with
        | none => .ok none
        | some c =>
          .ok (some { c with
            data := cblasSgemmTN ww.nc x.nc ww.nr ww.data (ww.nrq * 4)
              x.data (x.nrq * 4) (biasBroadcast bb c) (c.nrq * 4) })
      else .error ()
    | _, _ => .error ()

/-- `affine_map2(Xf, Xb, Wf, Wb, b, C)`: `RETURN_NULL_IF` on `Xf` then
`Xb` null-propagates; the five `assert`s are contract checks; then the
bias is broadcast into `C` of shape `(Wf->nc, Xf->nc)` and two external
multiplies accumulate the forward and backward transforms. -/
def affineMap2 (w : Nat) (Xf Xb Wf Wb b : Option ScrappieMatrix)
    (C : Option ScrappieMatrix) : Except Unit (Option ScrappieMatrix) :=
  match Xf with
  | none => .ok none
  | some xf =>
    match Xb with
    | none => .ok none
    | some xb =>
      match Wf, Wb, b with
      | some wf, some wb, some bb =>
        if wf.nr = xf.nr ∧ wb.nr = xb.nr ∧ xf.nc = xb.nc ∧ wf.nc = wb.nc then
          match remakeScrappieMatrix w C wf.nc xf.nc with
          | none => .ok none
          | some c =>
            .ok (some { c with
              data := cblasSgemmTN wb.nc xb.nc wb.nr wb.data (wb.nrq * 4)
                xb.data (xb.nrq * 4)
                (cblasSgemmTN wf.nc xf.nc wf.nr wf.data (wf.nrq * 4)
                  xf.data (xf.nrq * 4) (biasBroadcast bb c) (c.nrq * 4))
                (c.nrq * 4) })
        else .error ()
      | _, _, _ => .error ()

/-! ### Sequence encoding (`scrappie_squiggle.c`) -/

/-- `base_to_int(c, allow_lower)`: upper-case first when `allow_lower`
(`toupper`, ASCII), then `A`→0, `C`→1, `G`→2, `T`→3, anything else → -1
(with a warning). -/
def baseToInt (c : Char) (allowLower : Bool) : Int :=
  let c := if allowLower then c.toUpper else c
  if c = 'A' then 0
  else if c = 'C' then 1
  else if c = 'G' then 2
  else if c = 'T' then 3
  else -1

/-- `encode_bases_to_integers(seq, n)`: encode each character with
`base_to_int(·, true)`; on the first `-1` the buffer is freed and NULL
returned (no truncated prefix survives). -/
def encodeBasesToIntegers : List Char → Option (List Int)
  | [] => some []
  | c :: cs =>
    let ib := baseToInt c true
    if ib = -1 then none
    else (encodeBasesToIntegers cs).map (fun t => ib :: t)

/-- `sequence_to_squiggle(base_seq, n, rescale)`: NULL sequence
null-propagates; a failed encoding null-propagates; otherwise the encoded
integer sequence is handed to `dna_squiggle` (the external network forward
pass of `networks.h`, not part of the engine sources — taken here as an
arbitrary function parameter `dna`). -/
def sequenceToSquiggle (dna : List Int → Nat → Bool → Option ScrappieMatrix)
    (baseSeq : Option (List Char)) (rescale : Bool) : Option ScrappieMatrix :=
  match baseSeq with
  | none => none
  | some seq =>
    match encodeBasesToIntegers seq with
    | none => none
    | some iseq => dna iseq seq.length rescale

/-! ## Supporting lemmas -/

lemma nrq_mul_four_bounds (nr : Nat) (h : 0 < nr) :
    nr ≤ 4 * ((nr + 3) / 4) ∧ 4 * ((nr + 3) / 4) < nr + 4 := by
  have h1 := Nat.div_add_mod (nr + 3) 4
  have h2 : (nr + 3) % 4 < 4 := Nat.mod_lt _ (by omega)
  omega

lemma makeScrappieMatrix_eq_some (w nr nc : Nat)
    (h : (nr + 3) / 4 * 16 * nc < 2 ^ w) (hnc : 0 < nc) :
    makeScrappieMatrix w nr nc =
      some ⟨nr, (nr + 3) / 4, nc, List.replicate (4 * ((nr + 3) / 4) * nc) 0⟩ := by
  have h1 : (nr + 3) / 4 * 16 < 2 ^ w :=
    lt_of_le_of_lt (Nat.le_mul_of_pos_right _ hnc) h
  unfold makeScrappieMatrix
  rcases Nat.eq_zero_or_pos ((nr + 3) / 4) with hq | hq
  · simp [hq]
  · have ht1 : (nr + 3) / 4 * 16 % 2 ^ w = (nr + 3) / 4 * 16 := Nat.mod_eq_of_lt h1
    have ht2 : (nr + 3) / 4 * 16 * nc % 2 ^ w = (nr + 3) / 4 * 16 * nc :=
      Nat.mod_eq_of_lt h
    simp only [ht1, ht2]
    have hdiv : (nr + 3) / 4 * 16 * nc / ((nr + 3) / 4 * 16) = nc :=
      Nat.mul_div_cancel_left _ (by omega)
    simp [hdiv]

lemma makeScrappieMatrix_eq_none (w nr nc : Nat)
    (h1 : (nr + 3) / 4 * 16 < 2 ^ w) (h2 : 2 ^ w ≤ (nr + 3) / 4 * 16 * nc) :
    makeScrappieMatrix w nr nc = none := by
  have hw : 0 < 2 ^ w := Nat.pos_pow_of_pos w (by omega)
  have hq : 0 < (nr + 3) / 4 * 16 := by
    rcases Nat.eq_zero_or_pos ((nr + 3) / 4 * 16) with hz | hz
    · rw [hz, Nat.zero_mul] at h2; omega
    · exact hz
  have ht1 : (nr + 3) / 4 * 16 % 2 ^ w = (nr + 3) / 4 * 16 := Nat.mod_eq_of_lt h1
  have hmod : (nr + 3) / 4 * 16 * nc % 2 ^ w < (nr + 3) / 4 * 16 * nc :=
    lt_of_lt_of_le (Nat.mod_lt _ hw) h2
  have hltdiv : (nr + 3) / 4 * 16 * nc % 2 ^ w / ((nr + 3) / 4 * 16) < nc :=
    (Nat.div_lt_iff_lt_mul hq).mpr (by
      calc (nr + 3) / 4 * 16 * nc % 2 ^ w < (nr + 3) / 4 * 16 * nc := hmod
        _ = nc * ((nr + 3) / 4 * 16) := by ring)
  unfold makeScrappieMatrix
  simp only [ht1]
  rw [if_pos]
  exact ⟨by omega, by omega⟩

lemma getD_map_range {α : Type} (f : Nat → α) (d : α) (n i : Nat) (h : i < n) :
    ((List.range n).map f).getD i d = f i := by
  rw [List.getD_eq_getElem?_getD, List.getElem?_map, List.getElem?_range h]
  rfl

lemma flatten_getD_fixed (L : Nat) (cols : List (List Rat)) :
    ∀ (i j : Nat), (∀ c ∈ cols, c.length = L) → j < L →
      cols.flatten.getD (i * L + j) 0 = (cols.getD i []).getD j 0 := by
  induction cols with
  | nil =>
    intro i j _ _
    simp [List.getD]
  | cons c cs ih =>
    intro i j hlen hj
    have hc : c.length = L := hlen c (List.mem_cons_self c cs)
    have hcs : ∀ d ∈ cs, d.length = L := fun d hd => hlen d (List.mem_cons_of_mem c hd)
    cases i with
    | zero =>
      have : (c ++ cs.flatten).getD j 0 = c.getD j 0 :=
        List.getD_append _ _ _ _ (by omega)
      simpa using this
    | succ k =>
      have hidx : (k + 1) * L + j = c.length + (k * L + j) := by
        rw [hc]; ring
      have h1 : (c ++ cs.flatten).getD ((k + 1) * L + j) 0 =
          cs.flatten.getD ((k + 1) * L + j - c.length) 0 :=
        List.getD_append_right _ _ _ _ (by omega)
      have h2 : (k + 1) * L + j - c.length = k * L + j := by omega
      simp only [List.flatten_cons, h1, h2, List.getD_cons_succ]
      exact ih k j hcs hj

lemma matFromArray_eq_some (w : Nat) (x : List Rat) (nr nc : Nat)
    (hnc : 0 < nc) (hov : (nr + 3) / 4 * 16 * nc < 2 ^ w) :
    matFromArray w x nr nc =
      some ⟨nr, (nr + 3) / 4, nc,
        ((List.range nc).map (fun col =>
          (x.drop (col * nr)).take nr ++
          List.replicate (4 * ((nr + 3) / 4) - nr) 0)).flatten⟩ := by
  unfold matFromArray
  rw [makeScrappieMatrix_eq_some w nr nc hov hnc]

lemma matFromArray_column_length (x : List Rat) (nr nc col : Nat)
    (hnr : 0 < nr) (hlen : x.length = nr * nc) (hcol : col < nc) :
    ((x.drop (col * nr)).take nr ++
      List.replicate (4 * ((nr + 3) / 4) - nr) 0).length = 4 * ((nr + 3) / 4) := by
  have hb := nrq_mul_four_bounds nr hnr
  have h1 : col * nr + nr ≤ nr * nc := by
    calc col * nr + nr = (col + 1) * nr := by ring
      _ ≤ nc * nr := Nat.mul_le_mul_right nr (by omega)
      _ = nr * nc := by ring
  have htake : ((x.drop (col * nr)).take nr).length = nr := by
    rw [List.length_take, List.length_drop, hlen, Nat.min_eq_left (by omega)]
  simp only [List.length_append, htake, List.length_replicate]
  omega

lemma matFromArray_at (w : Nat) (x : List Rat) (nr nc : Nat)
    (m : ScrappieMatrix) (hnr : 0 < nr) (hnc : 0 < nc)
    (hlen : x.length = nr * nc) (hov : (nr + 3) / 4 * 16 * nc < 2 ^ w)
    (hm : matFromArray w x nr nc = some m) :
    m.nr = nr ∧ m.nrq = (nr + 3) / 4 ∧ m.nc = nc ∧
    ∀ col r, col < nc → r < 4 * m.nrq →
      m.at (col * m.nrq * 4 + r) =
        if r < nr then x.getD (col * nr + r) 0 else 0 := by
  rw [matFromArray_eq_some w x nr nc hnc hov] at hm
  cases hm
  refine ⟨rfl, rfl, rfl, ?_⟩
  intro col r hcol hr
  have hb := nrq_mul_four_bounds nr hnr
  set q := (nr + 3) / 4 with hq
  have hr2 : r < 4 * q := by simpa using hr
  have hcols : ∀ c ∈ (List.range nc).map (fun col =>
      (x.drop (col * nr)).take nr ++ List.replicate (4 * q - nr) 0),
      c.length = 4 * q := by
    intro c hc
    rcases List.mem_map.mp hc with ⟨col2, hcol2, rfl⟩
    exact matFromArray_column_length x nr nc col2 hnr hlen (List.mem_range.mp hcol2)
  have hidx : col * q * 4 + r = col * (4 * q) + r := by ring
  show (((List.range nc).map (fun col =>
      (x.drop (col * nr)).take nr ++ List.replicate (4 * q - nr) 0)).flatten).getD
      (col * q * 4 + r) 0 = _
  rw [hidx, flatten_getD_fixed (4 * q) _ col r hcols (by omega),
    getD_map_range _ _ _ _ hcol]
  have htake : ((x.drop (col * nr)).take nr).length = nr := by
    have h1 : col * nr + nr ≤ nr * nc := by
      calc col * nr + nr = (col + 1) * nr := by ring
        _ ≤ nc * nr := Nat.mul_le_mul_right nr (by omega)
        _ = nr * nc := by ring
    rw [List.length_take, List.length_drop, hlen, Nat.min_eq_left (by omega)]
  by_cases hrnr : r < nr
  · rw [if_pos hrnr, List.getD_append _ _ _ _ (by omega),
      List.getD_eq_getElem?_getD, List.getElem?_take_of_lt hrnr,
      List.getElem?_drop, ← List.getD_eq_getElem?_getD]
  · rw [if_neg hrnr, List.getD_append_right _ _ _ _ (by omega), htake,
      List.getD_eq_getElem?_getD, List.getElem?_replicate]
    split <;> simp

lemma foldlMax_eq_fst (f : Nat → Rat) :
    ∀ (l : List Nat) (a : Rat) (i0 : Nat),
      l.foldl (fun amax i => if amax < f i then f i else amax) a =
      (l.foldl (fun p i => if p.1 < f i then (f i, i) else p) (a, i0)).1 := by
  intro l
  induction l with
  | nil => intro a i0; rfl
  | cons i t ih =>
    intro a i0
    by_cases h : a < f i
    · simp only [List.foldl_cons, if_pos h]
      exact ih (f i) i
    · simp only [List.foldl_cons, if_neg h]
      exact ih a i0

lemma foldlArgmax_spec (f : Nat → Rat) :
    ∀ (l : List Nat) (a : Rat) (i0 : Nat) (r : Rat × Nat),
      r = l.foldl (fun p i => if p.1 < f i then (f i, i) else p) (a, i0) →
      a = f i0 →
      (r = (a, i0) ∧ ∀ j ∈ l, f j ≤ a) ∨
      (∃ p q, l = p ++ r.2 :: q ∧ r.1 = f r.2 ∧ a < r.1 ∧
         (∀ j ∈ p, f j < r.1) ∧ (∀ j ∈ q, f j ≤ r.1)) := by
  intro l
  induction l with
  | nil =>
    intro a i0 r hr ha
    left
    exact ⟨hr, by simp⟩
  | cons i t ih =>
    intro a i0 r hr ha
    by_cases h : a < f i
    · simp only [List.foldl_cons, if_pos h] at hr
      rcases ih (f i) i r hr rfl with ⟨hreq, hle⟩ | ⟨p, q, hdec, h1, h2, h3, h4⟩
      · right
        refine ⟨[], t, ?_, ?_, ?_, ?_, ?_⟩
        · simp [hreq]
        · simp [hreq]
        · rw [hreq]; exact h
        · intro j hj; exact absurd hj (List.not_mem_nil j)
        · intro j hj; rw [hreq]; exact hle j hj
      · right
        refine ⟨i :: p, q, ?_, h1, lt_trans h h2, ?_, h4⟩
        · rw [hdec]; rfl
        · intro j hj
          rcases List.mem_cons.mp hj with hj | hj
          · subst hj; exact h2
          · exact h3 j hj
    · simp only [List.foldl_cons, if_neg h] at hr
      rcases ih a i0 r hr ha with ⟨hreq, hle⟩ | ⟨p, q, hdec, h1, h2, h3, h4⟩
      · left
        refine ⟨hreq, ?_⟩
        intro j hj
        rcases List.mem_cons.mp hj with hj | hj
        · subst hj; exact le_of_not_lt h
        · exact hle j hj
      · right
        refine ⟨i :: p, q, ?_, h1, h2, ?_, h4⟩
        · rw [hdec]; rfl
        · intro j hj
          rcases List.mem_cons.mp hj with hj | hj
          · subst hj; exact lt_of_le_of_lt (le_of_not_lt h) h2
          · exact h3 j hj

lemma mem_logicalIndices (m : ScrappieMatrix) (j : Nat) :
    j ∈ logicalIndices m ↔
      ∃ col < m.nc, ∃ r < m.nr, j = col * m.nrq * 4 + r := by
  simp only [logicalIndices, List.mem_flatten, List.mem_map, List.mem_range]
  constructor
  · rintro ⟨c, ⟨col, hcol, rfl⟩, hj⟩
    rcases List.mem_map.mp hj with ⟨r, hr, rfl⟩
    exact ⟨col, hcol, r, List.mem_range.mp hr, rfl⟩
  · rintro ⟨col, hcol, r, hr, rfl⟩
    exact ⟨_, ⟨col, hcol, rfl⟩, List.mem_map.mpr ⟨r, List.mem_range.mpr hr, rfl⟩⟩

lemma logicalIndices_head (m : ScrappieMatrix) (hr : 0 < m.nr) (hc : 0 < m.nc) :
    ∃ t, logicalIndices m = 0 :: t := by
  obtain ⟨nr, nrq, nc, data⟩ := m
  dsimp only at hr hc ⊢
  obtain ⟨nc2, rfl⟩ : ∃ k, nc = k + 1 := ⟨nc - 1, by omega⟩
  obtain ⟨nr2, rfl⟩ : ∃ k, nr = k + 1 := ⟨nr - 1, by omega⟩
  simp only [logicalIndices]
  rw [List.range_succ_eq_map nc2, List.map_cons, List.flatten_cons,
    List.range_succ_eq_map nr2, List.map_cons]
  simp only [Nat.zero_mul, Nat.mul_zero, Nat.add_zero, Nat.zero_add,
    List.cons_append]
  exact ⟨_, rfl⟩

lemma sum_range_four_mul (f : Nat → Rat) (q : Nat) :
    (∑ row in Finset.range q, f (4 * row + 0)) +
    (∑ row in Finset.range q, f (4 * row + 1)) +
    (∑ row in Finset.range q, f (4 * row + 2)) +
    (∑ row in Finset.range q, f (4 * row + 3)) =
    ∑ j in Finset.range (4 * q), f j := by
  induction q with
  | zero => simp
  | succ n ih =>
    have p1 : ∑ j in Finset.range (4 * n + 4), f j =
        (∑ j in Finset.range (4 * n + 3), f j) + f (4 * n + 3) :=
      Finset.sum_range_succ f (4 * n + 3)
    have p2 : ∑ j in Finset.range (4 * n + 3), f j =
        (∑ j in Finset.range (4 * n + 2), f j) + f (4 * n + 2) :=
      Finset.sum_range_succ f (4 * n + 2)
    have p3 : ∑ j in Finset.range (4 * n + 2), f j =
        (∑ j in Finset.range (4 * n + 1), f j) + f (4 * n + 1) :=
      Finset.sum_range_succ f (4 * n + 1)
    have p4 : ∑ j in Finset.range (4 * n + 1), f j =
        (∑ j in Finset.range (4 * n), f j) + f (4 * n) :=
      Finset.sum_range_succ f (4 * n)
    rw [show 4 * (n + 1) = 4 * n + 4 from by ring,
      Finset.sum_range_succ, Finset.sum_range_succ, Finset.sum_range_succ,
      Finset.sum_range_succ, p1, p2, p3, p4, ← ih]
    simp only [Nat.add_zero]
    ring

lemma lane_mask_sum (f : Nat → Rat) (q n : Nat) (h1 : n ≤ 4 * q)
    (h2 : 4 * q < n + 4) (h3 : 0 < q) :
    ((∑ row in Finset.range q, f (4 * row + 0)) -
       (if rowNormMask (q * 4 - n) 0 then f (4 * (q - 1) + 0) else 0) +
     ((∑ row in Finset.range q, f (4 * row + 1)) -
       (if rowNormMask (q * 4 - n) 1 then f (4 * (q - 1) + 1) else 0))) +
    ((∑ row in Finset.range q, f (4 * row + 2)) -
       (if rowNormMask (q * 4 - n) 2 then f (4 * (q - 1) + 2) else 0) +
     ((∑ row in Finset.range q, f (4 * row + 3)) -
       (if rowNormMask (q * 4 - n) 3 then f (4 * (q - 1) + 3) else 0))) =
    ∑ r in Finset.range n, f r := by
  have hS := sum_range_four_mul f q
  simp only [Nat.add_zero] at hS ⊢
  have hi : q * 4 - n = 0 ∨ q * 4 - n = 1 ∨ q * 4 - n = 2 ∨ q * 4 - n = 3 := by
    omega
  rcases hi with hi | hi | hi | hi
  · rw [hi]
    norm_num [rowNormMask]
    rw [show n = 4 * q from by omega]
    linarith
  · rw [hi]
    norm_num [rowNormMask]
    rw [show 4 * (q - 1) + 3 = n from by omega]
    have hpeel : ∑ j in Finset.range (4 * q), f j =
        (∑ j in Finset.range n, f j) + f n := by
      rw [show 4 * q = n + 1 from by omega, Finset.sum_range_succ]
    linarith
  · rw [hi]
    norm_num [rowNormMask]
    rw [show 4 * (q - 1) + 2 = n from by omega,
      show 4 * (q - 1) + 3 = n + 1 from by omega]
    have hpeel : ∑ j in Finset.range (4 * q), f j =
        (∑ j in Finset.range n, f j) + f n + f (n + 1) := by
      rw [show 4 * q = n + 1 + 1 from by omega, Finset.sum_range_succ,
        Finset.sum_range_succ]
    linarith
  · rw [hi]
    norm_num [rowNormMask]
    rw [show 4 * (q - 1) + 1 = n from by omega,
      show 4 * (q - 1) + 2 = n + 1 from by omega,
      show 4 * (q - 1) + 3 = n + 2 from by omega]
    have hpeel : ∑ j in Finset.range (4 * q), f j =
        (∑ j in Finset.range n, f j) + f n + f (n + 1) + f (n + 2) := by
      rw [show 4 * q = n + 1 + 1 + 1 from by omega, Finset.sum_range_succ,
        Finset.sum_range_succ, Finset.sum_range_succ,
        show n + 1 + 1 = n + 2 from rfl]
    linarith

/-- The masked lane sum of `row_normalise_inplace` equals the sum over the
column's logical rows only, whatever the padding lanes hold. -/
lemma colSum_eq_logical (m : ScrappieMatrix) (hnr : 0 < m.nr)
    (hnrq : m.nrq = (m.nr + 3) / 4) (col : Nat) :
    colSum m col = ∑ r in Finset.range m.nr, m.at (col * m.nrq * 4 + r) := by
  have hb := nrq_mul_four_bounds m.nr hnr
  have h1 : m.nr ≤ 4 * m.nrq := by omega
  have h2 : 4 * m.nrq < m.nr + 4 := by omega
  have h3 : 0 < m.nrq := by omega
  have key := lane_mask_sum (fun j => m.at (col * m.nrq * 4 + j)) m.nrq m.nr h1 h2 h3
  simp only [← Nat.add_assoc] at key
  unfold colSum laneSum
  convert key using 2

/-! ## Claim theorems -/

/-- C3: for positive `nr`, `nc` and an unpadded column-major array `x` of
exactly `nr*nc` scalars, `array_from_scrappie_matrix(mat_from_array(x, nr,
nc))` returns `x` element-for-element, and every padding scalar of the
intermediate padded matrix is zero. -/
theorem mat_from_array_roundtrip_c3 (w nr nc : Nat) (x : List Rat)
    (hnr : 0 < nr) (hnc : 0 < nc) (hlen : x.length = nr * nc)
    (hov : (nr + 3) / 4 * 16 * nc < 2 ^ w) :
    ∃ m, matFromArray w x nr nc = some m ∧
      arrayFromScrappieMatrix (some m) = some x ∧
      ∀ col r, col < nc → nr ≤ r → r < 4 * m.nrq →
        m.at (col * m.nrq * 4 + r) = 0 := by
  have hm := matFromArray_eq_some w x nr nc hnc hov
  obtain ⟨hmnr, hmnrq, hmnc, hat⟩ :=
    matFromArray_at w x nr nc _ hnr hnc hlen hov hm
  have hb := nrq_mul_four_bounds nr hnr
  refine ⟨_, hm, ?_, ?_⟩
  · set M : ScrappieMatrix :=
      ⟨nr, (nr + 3) / 4, nc,
        ((List.range nc).map (fun col =>
          (x.drop (col * nr)).take nr ++
          List.replicate (4 * ((nr + 3) / 4) - nr) 0)).flatten⟩ with hM
    show some (((List.range M.nc).map (fun c =>
      (List.range M.nr).map (fun r => M.at (c * M.nrq * 4 + r)))).flatten) = some x
    have hMnr : M.nr = nr := rfl
    have hMnc : M.nc = nc := rfl
    have hMnrq : M.nrq = (nr + 3) / 4 := rfl
    refine congrArg some ?_
    have hinner : ∀ c ∈ (List.range M.nc).map (fun c =>
        (List.range M.nr).map (fun r => M.at (c * M.nrq * 4 + r))),
        c.length = nr := by
      intro c hc
      rcases List.mem_map.mp hc with ⟨c2, _, rfl⟩
      rw [List.length_map, List.length_range, hMnr]
    have hlenR : (((List.range M.nc).map (fun c =>
        (List.range M.nr).map (fun r => M.at (c * M.nrq * 4 + r)))).flatten).length
        = nc * nr := by
      rw [List.length_flatten, List.map_map]
      have : (List.map (List.length ∘ fun c =>
          (List.range M.nr).map (fun r => M.at (c * M.nrq * 4 + r)))
          (List.range M.nc)) = List.replicate nc nr := by
        rw [show (List.length ∘ fun c => (List.range M.nr).map
            (fun r => M.at (c * M.nrq * 4 + r))) = fun _ => nr from ?_]
        · rw [hMnc, List.map_const', List.length_range]
        · funext c
          simp [hMnr]
      rw [this, List.sum_replicate, smul_eq_mul]
    refine List.ext_getElem (by rw [hlenR, hlen]; ring) ?_
    intro i h1 h2
    rw [hlenR] at h1
    have hc : i / nr < nc := (Nat.div_lt_iff_lt_mul hnr).mpr (by
      calc i < nc * nr := h1
        _ = nc * nr := rfl)
    have hrr : i % nr < nr := Nat.mod_lt _ hnr
    have hi : i / nr * nr + i % nr = i := by
      have h3 := Nat.div_add_mod i nr
      have h4 : i / nr * nr = nr * (i / nr) := Nat.mul_comm _ _
      omega
    rw [← List.getD_eq_getElem _ 0, ← List.getD_eq_getElem _ 0, ← hi,
      flatten_getD_fixed nr _ (i / nr) (i % nr) hinner hrr,
      getD_map_range _ _ _ _ (by rw [hMnc]; exact hc)]
    have := hat (i / nr) (i % nr) hc (by
      show i % nr < 4 * M.nrq
      rw [hMnrq]; omega)
    rw [getD_map_range _ _ _ _ (by rw [hMnr]; exact hrr)]
    rw [this, if_pos hrr]
  · intro col r hcol hge hlt
    rw [hat col r hcol hlt, if_neg (by omega)]

/-- C3 witness: the `2×2` column-major array `[1,3,5,2]` round-trips
through the padded representation, whose padding scalars are zero. -/
theorem mat_from_array_roundtrip_c3_witness :
    ∃ m, matFromArray 64 [1, 3, 5, 2] 2 2 = some m ∧
      arrayFromScrappieMatrix (some m) = some [1, 3, 5, 2] ∧
      ∀ col r, col < 2 → 2 ≤ r → r < 4 * m.nrq →
        m.at (col * m.nrq * 4 + r) = 0 :=
  mat_from_array_roundtrip_c3 64 2 2 [1, 3, 5, 2] (by norm_num) (by norm_num)
    (by norm_num) (by norm_num)

/-- C5: `make_scrappie_matrix` returns an absent result exactly when the
`size_t` byte-size computation `nrq*nc*16` overflows (detected by the
multiply-then-divide-back check); on success the matrix has
`nrq = ceil(nr/4)` and its entire lane buffer (all `4*nrq*nc` scalars,
logical and padding) is zero-filled, never truncated or mis-sized. -/
theorem make_scrappie_matrix_overflow_c5 (w nr nc : Nat)
    (hnr : 0 < nr) (hnc : 0 < nc) (h1 : (nr + 3) / 4 * 16 < 2 ^ w) :
    (makeScrappieMatrix w nr nc = none ↔ 2 ^ w ≤ (nr + 3) / 4 * 16 * nc) ∧
    (∀ m, makeScrappieMatrix w nr nc = some m →
      m.nrq = (nr + 3) / 4 ∧ m.nr = nr ∧ m.nc = nc ∧
      m.data.length = 4 * m.nrq * m.nc ∧
      ∀ i, i < 4 * m.nrq * m.nc → m.at i = 0) := by
  constructor
  · constructor
    · intro hnone
      by_contra hno
      rw [makeScrappieMatrix_eq_some w nr nc (by omega) hnc] at hnone
      exact Option.noConfusion hnone
    · intro hov
      exact makeScrappieMatrix_eq_none w nr nc h1 hov
  · intro m hm
    rcases Nat.lt_or_ge ((nr + 3) / 4 * 16 * nc) (2 ^ w) with hov | hov
    · rw [makeScrappieMatrix_eq_some w nr nc hov hnc] at hm
      cases hm
      refine ⟨rfl, rfl, rfl, by simp, ?_⟩
      intro i _
      show (List.replicate (4 * ((nr + 3) / 4) * nc) (0 : Rat)).getD i 0 = 0
      rw [List.getD_eq_getElem?_getD, List.getElem?_replicate]
      split <;> simp
    · rw [makeScrappieMatrix_eq_none w nr nc h1 hov] at hm
      exact Option.noConfusion hm

/-- C5 witness: on a 32-bit `size_t`, shape `(2^20, 2^10)` overflows the
byte-size computation (`2^18 * 16 * 2^10 = 2^32`) and is rejected, while
shape `(6, 3)` succeeds with `nrq = 2` and a zero buffer. -/
theorem make_scrappie_matrix_overflow_c5_witness :
    makeScrappieMatrix 32 (2 ^ 20) (2 ^ 10) = none ∧
    (∀ m, makeScrappieMatrix 64 6 3 = some m →
      m.nrq = (6 + 3) / 4 ∧ m.nr = 6 ∧ m.nc = 3 ∧
      m.data.length = 4 * m.nrq * m.nc ∧
      ∀ i, i < 4 * m.nrq * m.nc → m.at i = 0) :=
  ⟨(make_scrappie_matrix_overflow_c5 32 (2 ^ 20) (2 ^ 10) (by norm_num)
      (by norm_num) (by norm_num)).1.mpr (by norm_num),
   (make_scrappie_matrix_overflow_c5 64 6 3 (by norm_num) (by norm_num)
      (by norm_num)).2⟩

/-- C9: `remake_scrappie_matrix` returns the existing matrix itself —
every element, logical and padding, untouched — when its shape already
equals `(nr, nc)`; when the handle is absent or the shape differs, the
old matrix is released and a fresh zero-initialized `(nr, nc)` matrix is
allocated. -/
theorem remake_scrappie_matrix_c9 (w nr nc : Nat) :
    (∀ m : ScrappieMatrix, m.nr = nr → m.nc = nc →
       remakeScrappieMatrix w (some m) nr nc = some m) ∧
    (remakeScrappieMatrix w none nr nc = makeScrappieMatrix w nr nc) ∧
    (∀ m : ScrappieMatrix, ¬(m.nr = nr ∧ m.nc = nc) →
       remakeScrappieMatrix w (some m) nr nc = makeScrappieMatrix w nr nc) ∧
    (0 < nc → (nr + 3) / 4 * 16 * nc < 2 ^ w →
       makeScrappieMatrix w nr nc =
         some ⟨nr, (nr + 3) / 4, nc, List.replicate (4 * ((nr + 3) / 4) * nc) 0⟩) := by
  refine ⟨?_, rfl, ?_, ?_⟩
  · intro m h1 h2
    simp [remakeScrappieMatrix, h1, h2]
  · intro m h
    simp [remakeScrappieMatrix, h]
  · intro hnc hov
    exact makeScrappieMatrix_eq_some w nr nc hov hnc

/-- C9 witness: a `2×2` matrix with non-zero contents survives a same-shape
remake unchanged; an absent handle and a shape mismatch both yield the
fresh zero-filled allocation. -/
theorem remake_scrappie_matrix_c9_witness :
    remakeScrappieMatrix 64 (some ⟨2, 1, 2, [1, 3, 0, 0, 5, 2, 0, 0]⟩) 2 2 =
      some ⟨2, 1, 2, [1, 3, 0, 0, 5, 2, 0, 0]⟩ ∧
    remakeScrappieMatrix 64 none 2 2 = makeScrappieMatrix 64 2 2 ∧
    remakeScrappieMatrix 64 (some ⟨2, 1, 2, [1, 3, 0, 0, 5, 2, 0, 0]⟩) 3 2 =
      makeScrappieMatrix 64 3 2 ∧
    makeScrappieMatrix 64 2 2 =
      some ⟨2, (2 + 3) / 4, 2, List.replicate (4 * ((2 + 3) / 4) * 2) 0⟩ :=
  ⟨(remake_scrappie_matrix_c9 64 2 2).1 _ rfl rfl,
   (remake_scrappie_matrix_c9 64 2 2).2.1,
   (remake_scrappie_matrix_c9 64 3 2).2.2.1 _ (by decide),
   (remake_scrappie_matrix_c9 64 2 2).2.2.2 (by decide) (by decide)⟩

/-- Unfolding of `row_normalise_inplace` on a non-NULL matrix: every
scalar is multiplied by the reciprocal of its own column's masked sum. -/
lemma rowNormaliseInplace_some (m : ScrappieMatrix) :
    rowNormaliseInplace (some m) =
      some { m with
             data := (List.range (4 * m.nrq * m.nc)).map
               (fun idx => m.at idx * (1 / colSum m (idx / (m.nrq * 4)))) } := rfl

lemma rowNormaliseInplace_at (m : ScrappieMatrix) (col r : Nat)
    (hcol : col < m.nc) (hr : r < m.nrq * 4) :
    ∀ m2, rowNormaliseInplace (some m) = some m2 →
      m2.at (col * m.nrq * 4 + r) =
        m.at (col * m.nrq * 4 + r) * (1 / colSum m col) := by
  intro m2 hm2
  rw [rowNormaliseInplace_some] at hm2
  injection hm2 with hm2
  subst hm2
  have hq4 : 0 < m.nrq * 4 := by omega
  have hin : col * m.nrq * 4 + r < 4 * m.nrq * m.nc := by
    have h5 : (col + 1) * (m.nrq * 4) ≤ m.nc * (m.nrq * 4) :=
      Nat.mul_le_mul_right _ (by omega)
    calc col * m.nrq * 4 + r < col * (m.nrq * 4) + m.nrq * 4 := by
          rw [Nat.mul_assoc]; omega
      _ = (col + 1) * (m.nrq * 4) := by ring
      _ ≤ m.nc * (m.nrq * 4) := h5
      _ = 4 * m.nrq * m.nc := by ring
  have hdiv : (col * m.nrq * 4 + r) / (m.nrq * 4) = col := by
    rw [show col * m.nrq * 4 + r = m.nrq * 4 * col + r from by ring,
      Nat.mul_add_div hq4, Nat.div_eq_of_lt hr, Nat.add_zero]
  show ((List.range (4 * m.nrq * m.nc)).map
    (fun idx => m.at idx * (1 / colSum m (idx / (m.nrq * 4))))).getD
      (col * m.nrq * 4 + r) 0 = _
  rw [getD_map_range _ _ _ _ hin, hdiv]

/-- C6: `row_normalise_inplace` — an absent input is a no-op; the masked
column sum equals the sum over the column's logical rows only, whatever
the padding lanes hold; every scalar of a column is divided by that
logical sum; and for positive-valued input columns the logical rows of
every column afterwards sum to exactly `1` (hence within tolerance
`1e-5`). -/
theorem row_normalise_inplace_c6 (m : ScrappieMatrix) (hwf : m.wf) :
    rowNormaliseInplace none = none ∧
    (∀ col, colSum m col =
       ∑ r in Finset.range m.nr, m.at (col * m.nrq * 4 + r)) ∧
    (∃ m2, rowNormaliseInplace (some m) = some m2 ∧
      (∀ col r, col < m.nc → r < 4 * m.nrq →
        m2.at (col * m.nrq * 4 + r) =
          m.at (col * m.nrq * 4 + r) *
            (1 / ∑ j in Finset.range m.nr, m.at (col * m.nrq * 4 + j))) ∧
      ((∀ col r, col < m.nc → r < m.nr → 0 < m.at (col * m.nrq * 4 + r)) →
        ∀ col < m.nc,
          (∑ r in Finset.range m.nr, m2.at (col * m.nrq * 4 + r)) = 1 ∧
          |(∑ r in Finset.range m.nr, m2.at (col * m.nrq * 4 + r)) - 1| ≤
            1 / 100000)) := by
  obtain ⟨hnr, hnc, hnrq, hlen⟩ := hwf
  have hb := nrq_mul_four_bounds m.nr hnr
  obtain ⟨m2, hm2⟩ : ∃ m2, rowNormaliseInplace (some m) = some m2 := ⟨_, rfl⟩
  have hat : ∀ col r, col < m.nc → r < 4 * m.nrq →
      m2.at (col * m.nrq * 4 + r) =
        m.at (col * m.nrq * 4 + r) *
          (1 / ∑ j in Finset.range m.nr, m.at (col * m.nrq * 4 + j)) := by
    intro col r hcol hr
    rw [rowNormaliseInplace_at m col r hcol (by omega) m2 hm2,
      colSum_eq_logical m hnr hnrq col]
  refine ⟨rfl, fun col => colSum_eq_logical m hnr hnrq col, m2, hm2, hat, ?_⟩
  intro hpos col hcol
  have hSpos : 0 < ∑ j in Finset.range m.nr, m.at (col * m.nrq * 4 + j) :=
    Finset.sum_pos (fun i hi => hpos col i hcol (Finset.mem_range.mp hi))
      ⟨0, Finset.mem_range.mpr hnr⟩
  have hsum : (∑ r in Finset.range m.nr, m2.at (col * m.nrq * 4 + r)) = 1 := by
    have heach : ∀ r ∈ Finset.range m.nr,
        m2.at (col * m.nrq * 4 + r) =
          m.at (col * m.nrq * 4 + r) *
            (1 / ∑ j in Finset.range m.nr, m.at (col * m.nrq * 4 + j)) := by
      intro r hr
      exact hat col r hcol (by have := Finset.mem_range.mp hr; omega)
    rw [Finset.sum_congr rfl heach, ← Finset.sum_mul, mul_one_div,
      div_self (ne_of_gt hSpos)]
  refine ⟨hsum, ?_⟩
  rw [hsum]
  norm_num

/-- C6 witness: a `2×2` positive matrix carrying garbage in its padding
lanes — the masked sums ignore the garbage and both columns sum to `1`
after normalisation. -/
theorem row_normalise_inplace_c6_witness :
    (⟨2, 1, 2, [1, 3, 9, 9, 5, 2, 7, 7]⟩ : ScrappieMatrix).wf ∧
    (rowNormaliseInplace none = none ∧
     (∀ col, colSum (⟨2, 1, 2, [1, 3, 9, 9, 5, 2, 7, 7]⟩ : ScrappieMatrix) col =
        ∑ r in Finset.range 2,
          (⟨2, 1, 2, [1, 3, 9, 9, 5, 2, 7, 7]⟩ : ScrappieMatrix).at (col * 1 * 4 + r)) ∧
     (∃ m2, rowNormaliseInplace
          (some (⟨2, 1, 2, [1, 3, 9, 9, 5, 2, 7, 7]⟩ : ScrappieMatrix)) = some m2 ∧
       (∀ col r, col < 2 → r < 4 * 1 →
         m2.at (col * 1 * 4 + r) =
           (⟨2, 1, 2, [1, 3, 9, 9, 5, 2, 7, 7]⟩ : ScrappieMatrix).at (col * 1 * 4 + r) *
             (1 / ∑ j in Finset.range 2,
               (⟨2, 1, 2, [1, 3, 9, 9, 5, 2, 7, 7]⟩ : ScrappieMatrix).at (col * 1 * 4 + j))) ∧
       ((∀ col r, col < 2 → r < 2 →
           0 < (⟨2, 1, 2, [1, 3, 9, 9, 5, 2, 7, 7]⟩ : ScrappieMatrix).at (col * 1 * 4 + r)) →
         ∀ col < 2,
           (∑ r in Finset.range 2, m2.at (col * 1 * 4 + r)) = 1 ∧
           |(∑ r in Finset.range 2, m2.at (col * 1 * 4 + r)) - 1| ≤ 1 / 100000))) :=
  ⟨by decide, row_normalise_inplace_c6 _ (by decide)⟩

/-- C7 counterexample: the claim says an absent `W` or `b` yields an
absent output, but `affine_map` with non-absent `X` and absent `W` (or
absent `b`) fails the `assert(NULL != W)` / `assert(NULL != b)` contract
check (modelled `Except.error ()`) instead of returning the absent result
`Except.ok none`. -/
theorem affine_map_absent_weight_counterexample_c7 :
    affineMap 64 (some ⟨1, 1, 1, [0, 0, 0, 0]⟩) none
        (some ⟨1, 1, 1, [0, 0, 0, 0]⟩) none = Except.error () ∧
    affineMap 64 (some ⟨1, 1, 1, [0, 0, 0, 0]⟩) (some ⟨1, 1, 1, [0, 0, 0, 0]⟩)
        none none = Except.error () ∧
    (Except.error () : Except Unit (Option ScrappieMatrix)) ≠ Except.ok none := by
  refine ⟨rfl, rfl, ?_⟩
  intro h
  exact Except.noConfusion h

/-- C7 (amended): `affine_map` returns an absent result when `X` is
absent and `affine_map2` when `Xf` or `Xb` is absent (null-propagation);
an absent `W`, `b`, `Wf` or `Wb` is instead a contract violation that
fails the debug assertion (modelled as an error), not a null-propagated
absent output. -/
theorem affine_map_null_propagation_c7 (w : Nat) :
    (∀ W b C, affineMap w none W b C = Except.ok none) ∧
    (∀ Xb Wf Wb b C, affineMap2 w none Xb Wf Wb b C = Except.ok none) ∧
    (∀ xf Wf Wb b C, affineMap2 w (some xf) none Wf Wb b C = Except.ok none) ∧
    (∀ x b C, affineMap w (some x) none b C = Except.error ()) ∧
    (∀ x ww C, affineMap w (some x) (some ww) none C = Except.error ()) ∧
    (∀ xf xb Wb b C, affineMap2 w (some xf) (some xb) none Wb b C = Except.error ()) ∧
    (∀ xf xb wf b C, affineMap2 w (some xf) (some xb) (some wf) none b C = Except.error ()) ∧
    (∀ xf xb wf wb C, affineMap2 w (some xf) (some xb) (some wf) (some wb) none C = Except.error ()) := by
  refine ⟨fun W b C => rfl, fun Xb Wf Wb b C => rfl, fun xf Wf Wb b C => rfl,
    ?_, ?_, ?_, ?_, ?_⟩
  · intro x b C; cases b <;> rfl
  · intro x ww C; rfl
  · intro xf xb Wb b C; cases Wb <;> cases b <;> rfl
  · intro xf xb wf b C; cases b <;> rfl
  · intro xf xb wf wb C; rfl

/-- C7 witness: the amended behaviors at concrete `1×1` matrices. -/
theorem affine_map_null_propagation_c7_witness :
    affineMap 64 none (some ⟨1, 1, 1, [2, 0, 0, 0]⟩)
        (some ⟨1, 1, 1, [3, 0, 0, 0]⟩) none = Except.ok none ∧
    affineMap2 64 none (some ⟨1, 1, 1, [2, 0, 0, 0]⟩) none none none none = Except.ok none ∧
    affineMap2 64 (some ⟨1, 1, 1, [2, 0, 0, 0]⟩) none none none none none = Except.ok none ∧
    affineMap 64 (some ⟨1, 1, 1, [2, 0, 0, 0]⟩) none
        (some ⟨1, 1, 1, [3, 0, 0, 0]⟩) none = Except.error () ∧
    affineMap 64 (some ⟨1, 1, 1, [2, 0, 0, 0]⟩) (some ⟨1, 1, 1, [3, 0, 0, 0]⟩)
        none none = Except.error () :=
  ⟨(affine_map_null_propagation_c7 64).1 _ _ _,
   (affine_map_null_propagation_c7 64).2.1 _ _ _ _ _,
   (affine_map_null_propagation_c7 64).2.2.1 _ _ _ _ _,
   (affine_map_null_propagation_c7 64).2.2.2.1 _ _ _,
   (affine_map_null_propagation_c7 64).2.2.2.2.1 _ _ _⟩

/-- C8: the base encoding maps `A`→0, `C`→1, `G`→2, `T`→3
case-insensitively; any other character encodes to `-1`, and a sequence
containing such a character anywhere makes the whole encoding — and hence
`sequence_to_squiggle`, for every network forward pass — return an absent
result, never a truncated prefix. -/
theorem sequence_encoding_c8 :
    (baseToInt 'A' true = 0 ∧ baseToInt 'a' true = 0 ∧
     baseToInt 'C' true = 1 ∧ baseToInt 'c' true = 1 ∧
     baseToInt 'G' true = 2 ∧ baseToInt 'g' true = 2 ∧
     baseToInt 'T' true = 3 ∧ baseToInt 't' true = 3) ∧
    (∀ c : Char,
       ¬(c.toUpper = 'A' ∨ c.toUpper = 'C' ∨ c.toUpper = 'G' ∨ c.toUpper = 'T') →
       baseToInt c true = -1) ∧
    (∀ (seq : List Char) (c : Char), c ∈ seq → baseToInt c true = -1 →
       encodeBasesToIntegers seq = none ∧
       ∀ dna rescale, sequenceToSquiggle dna (some seq) rescale = none) := by
  have hinvalid : ∀ (seq : List Char) (c : Char), c ∈ seq → baseToInt c true = -1 →
      encodeBasesToIntegers seq = none := by
    intro seq
    induction seq with
    | nil => intro c hc; exact absurd hc (List.not_mem_nil c)
    | cons d ds ih =>
      intro c hc hbad
      rcases List.mem_cons.mp hc with hd | hd
      · subst hd
        simp [encodeBasesToIntegers, hbad]
      · by_cases hdd : baseToInt d true = -1
        · simp [encodeBasesToIntegers, hdd]
        · simp [encodeBasesToIntegers, hdd, ih c hd hbad]
  refine ⟨by refine ⟨?_, ?_, ?_, ?_, ?_, ?_, ?_, ?_⟩ <;> decide, ?_, ?_⟩
  · intro c h
    push_neg at h
    obtain ⟨h1, h2, h3, h4⟩ := h
    simp [baseToInt, h1, h2, h3, h4]
  · intro seq c hc hbad
    have henc := hinvalid seq c hc hbad
    exact ⟨henc, fun dna rescale => by simp [sequenceToSquiggle, henc]⟩

/-- C8 witness: `"ACGX"` — the `X` at the last position discards the
whole encoding and the squiggle result, even for a network forward pass
that never fails. -/
theorem sequence_encoding_c8_witness :
    baseToInt 'X' true = -1 ∧
    encodeBasesToIntegers ['A', 'C', 'G', 'X'] = none ∧
    sequenceToSquiggle (fun _ n _ => makeScrappieMatrix 64 3 n)
      (some ['A', 'C', 'G', 'X']) true = none :=
  ⟨by decide,
   (sequence_encoding_c8.2.2 ['A', 'C', 'G', 'X'] 'X' (by decide) (by decide)).1,
   (sequence_encoding_c8.2.2 ['A', 'C', 'G', 'X'] 'X' (by decide) (by decide)).2
     (fun _ n _ => makeScrappieMatrix 64 3 n) true⟩

/-- C2: `argmax_scrappie_matrix` returns the flat padded-buffer offset
(`col*nrq*4 + r`) of the greatest logical element — ties resolved to the
first element in column-major, row-ascending scan order — and
`max_scrappie_matrix` returns that greatest value; absent input yields
`-1` and the `NAN` sentinel; on the column-major matrix `[[1,5],[3,2]]`
argmax returns the flat offset `4` of value `5` and max returns `5`. -/
theorem argmax_max_scrappie_matrix_c2 (x : ScrappieMatrix) (hwf : x.wf) :
    (∃ i : Nat, argmaxScrappieMatrix (some x) = (i : Int) ∧
       (∃ col < x.nc, ∃ r < x.nr, i = col * x.nrq * 4 + r) ∧
       maxScrappieMatrix (some x) = some (x.at i) ∧
       (∀ j ∈ logicalIndices x, x.at j ≤ x.at i) ∧
       (∃ p q, logicalIndices x = p ++ i :: q ∧
          ∀ j ∈ p, x.at j < x.at i)) ∧
    argmaxScrappieMatrix none = -1 ∧
    maxScrappieMatrix none = none ∧
    argmaxScrappieMatrix (matFromArray 64 [1, 3, 5, 2] 2 2) = 4 ∧
    maxScrappieMatrix (matFromArray 64 [1, 3, 5, 2] 2 2) = some 5 := by
  obtain ⟨hr, hc, -, -⟩ := hwf
  obtain ⟨t, ht⟩ := logicalIndices_head x hr hc
  set F := (logicalIndices x).foldl
    (fun p i => if p.1 < x.at i then (x.at i, i) else p) (x.at 0, 0) with hF
  have harg : argmaxScrappieMatrix (some x) = (F.2 : Int) := by rw [hF]; rfl
  have hmax : maxScrappieMatrix (some x) = some F.1 := by
    rw [hF]
    show some _ = some _
    rw [foldlMax_eq_fst x.at (logicalIndices x) (x.at 0) 0]
  refine ⟨?_, rfl, rfl, by decide, by decide⟩
  rcases foldlArgmax_spec x.at (logicalIndices x) (x.at 0) 0 F hF rfl with
    ⟨hreq, hle⟩ | ⟨p, q, hdec, h1, h2, h3, h4⟩
  · refine ⟨0, ?_, ⟨0, hc, 0, hr, by simp⟩, ?_, ?_, ⟨[], t, by simpa using ht, by simp⟩⟩
    · rw [harg, hreq]
    · rw [hmax, hreq]
    · intro j hj
      exact hle j hj
  · refine ⟨F.2, harg, ?_, ?_, ?_, ⟨p, q, hdec, fun j hj => h1 ▸ h3 j hj⟩⟩
    · refine (mem_logicalIndices x F.2).mp ?_
      rw [hdec]
      exact List.mem_append_right p (List.mem_cons_self _ _)
    · rw [hmax, h1]
    · intro j hj
      rw [hdec] at hj
      rcases List.mem_append.mp hj with hp | hq
      · exact le_of_lt (h1 ▸ h3 j hp)
      · rcases List.mem_cons.mp hq with hj2 | hq2
        · subst hj2; exact le_refl _
        · exact h1 ▸ h4 j hq2

/-- C2 witness: the claim instantiated at the `[[1,5],[3,2]]` matrix,
whose flat padded buffer is `[1,3,0,0,5,2,0,0]`. -/
theorem argmax_max_scrappie_matrix_c2_witness :
    (⟨2, 1, 2, [1, 3, 0, 0, 5, 2, 0, 0]⟩ : ScrappieMatrix).wf ∧
    ((∃ i : Nat, argmaxScrappieMatrix
        (some (⟨2, 1, 2, [1, 3, 0, 0, 5, 2, 0, 0]⟩ : ScrappieMatrix)) = (i : Int) ∧
       (∃ col < 2, ∃ r < 2, i = col * 1 * 4 + r) ∧
       maxScrappieMatrix (some (⟨2, 1, 2, [1, 3, 0, 0, 5, 2, 0, 0]⟩ : ScrappieMatrix)) =
         some ((⟨2, 1, 2, [1, 3, 0, 0, 5, 2, 0, 0]⟩ : ScrappieMatrix).at i) ∧
       (∀ j ∈ logicalIndices (⟨2, 1, 2, [1, 3, 0, 0, 5, 2, 0, 0]⟩ : ScrappieMatrix),
          (⟨2, 1, 2, [1, 3, 0, 0, 5, 2, 0, 0]⟩ : ScrappieMatrix).at j ≤
          (⟨2, 1, 2, [1, 3, 0, 0, 5, 2, 0, 0]⟩ : ScrappieMatrix).at i) ∧
       (∃ p q, logicalIndices (⟨2, 1, 2, [1, 3, 0, 0, 5, 2, 0, 0]⟩ : ScrappieMatrix) =
            p ++ i :: q ∧
          ∀ j ∈ p, (⟨2, 1, 2, [1, 3, 0, 0, 5, 2, 0, 0]⟩ : ScrappieMatrix).at j <
            (⟨2, 1, 2, [1, 3, 0, 0, 5, 2, 0, 0]⟩ : ScrappieMatrix).at i)) ∧
     argmaxScrappieMatrix none = -1 ∧
     maxScrappieMatrix none = none ∧
     argmaxScrappieMatrix (matFromArray 64 [1, 3, 5, 2] 2 2) = 4 ∧
     maxScrappieMatrix (matFromArray 64 [1, 3, 5, 2] 2 2) = some 5) :=
  ⟨by decide, argmax_max_scrappie_matrix_c2 _ (by decide)⟩

/-- C4: `equality_scrappie_matrix` — both absent is equal; exactly one
absent is unequal; differing logical shapes are unequal; with equal
shapes the matrices are equal exactly when every pair of corresponding
logical elements differs by at most `tol` in absolute value (padding
lanes excluded). -/
theorem equality_scrappie_matrix_c4 :
    (∀ tol : Rat, equalityScrappieMatrix none none tol = true) ∧
    (∀ (m : ScrappieMatrix) (tol : Rat),
       equalityScrappieMatrix (some m) none tol = false) ∧
    (∀ (m : ScrappieMatrix) (tol : Rat),
       equalityScrappieMatrix none (some m) tol = false) ∧
    (∀ (a b : ScrappieMatrix) (tol : Rat), a.nr ≠ b.nr ∨ a.nc ≠ b.nc →
       equalityScrappieMatrix (some a) (some b) tol = false) ∧
    (∀ (a b : ScrappieMatrix) (tol : Rat), a.wf → b.wf →
       a.nr = b.nr → a.nc = b.nc →
       (equalityScrappieMatrix (some a) (some b) tol = true ↔
         ∀ c < a.nc, ∀ r < a.nr,
           |a.at (c * 4 * a.nrq + r) - b.at (c * 4 * b.nrq + r)| ≤ tol)) := by
  refine ⟨fun tol => rfl, fun m tol => rfl, fun m tol => rfl, ?_, ?_⟩
  · intro a b tol h
    dsimp only [equalityScrappieMatrix]
    rw [if_pos (by tauto)]
  · intro a b tol hwa hwb h1 h2
    have hnrq : a.nrq = b.nrq := by
      obtain ⟨_, _, ha, _⟩ := hwa
      obtain ⟨_, _, hbq, _⟩ := hwb
      rw [ha, hbq, h1]
    dsimp only [equalityScrappieMatrix]
    rw [if_neg (by simp [h1, h2]), hnrq]
    simp [List.all_eq_true, List.mem_range, decide_eq_true_eq]

/-- C4 witness: `2×2` matrices whose logical elements agree but whose
padding lanes differ are equal at tolerance `0`; shrinking one logical
element by more than the tolerance breaks equality via the iff. -/
theorem equality_scrappie_matrix_c4_witness :
    equalityScrappieMatrix none none 1 = true ∧
    equalityScrappieMatrix (some ⟨2, 1, 2, [1, 3, 0, 0, 5, 2, 0, 0]⟩) none 1 = false ∧
    equalityScrappieMatrix none (some ⟨2, 1, 2, [1, 3, 0, 0, 5, 2, 0, 0]⟩) 1 = false ∧
    equalityScrappieMatrix (some ⟨2, 1, 2, [1, 3, 0, 0, 5, 2, 0, 0]⟩)
      (some ⟨3, 1, 2, [1, 3, 4, 0, 5, 2, 6, 0]⟩) 1 = false ∧
    (equalityScrappieMatrix (some ⟨2, 1, 2, [1, 3, 0, 0, 5, 2, 0, 0]⟩)
       (some ⟨2, 1, 2, [1, 3, 7, 7, 5, 2, 7, 7]⟩) 0 = true ↔
     ∀ c < 2, ∀ r < 2,
       |(⟨2, 1, 2, [1, 3, 0, 0, 5, 2, 0, 0]⟩ : ScrappieMatrix).at (c * 4 * 1 + r) -
        (⟨2, 1, 2, [1, 3, 7, 7, 5, 2, 7, 7]⟩ : ScrappieMatrix).at (c * 4 * 1 + r)| ≤ 0) :=
  ⟨equality_scrappie_matrix_c4.1 1,
   equality_scrappie_matrix_c4.2.1 _ 1,
   equality_scrappie_matrix_c4.2.2.1 _ 1,
   equality_scrappie_matrix_c4.2.2.2.1 _ _ 1 (by left; decide),
   equality_scrappie_matrix_c4.2.2.2.2 _ _ 0 (by decide) (by decide) rfl rfl⟩

/-- C10: the debug-build vector validators compare elements to the given
bounds exactly — they report failure precisely when the handle is absent
or some element among the first `n` lies strictly below the (given) lower
bound or strictly above the (given) upper bound — while the matrix
validator's bound checks admit an `FLT_EPSILON` tolerance: a value
exactly `FLT_EPSILON` below the lower bound passes the matrix check but
fails the vector check. -/
theorem validate_vector_exact_bounds_c10 :
    (∀ n lower upper, validateVector none n lower upper = false) ∧
    (∀ (v : List Rat) (n : Nat) (lower upper : Option Rat),
       validateVector (some v) n lower upper = false ↔
         ∃ i < n, (∃ lo, lower = some lo ∧ v.getD i 0 < lo) ∨
                  (∃ up, upper = some up ∧ up < v.getD i 0)) ∧
    (∀ n lower upper, validateIVector none n lower upper = false) ∧
    (∀ (v : List Int) (n : Nat) (lower upper : Int),
       validateIVector (some v) n lower upper = false ↔
         ∃ i < n, v.getD i 0 < lower ∨ upper < v.getD i 0) ∧
    (validateScrappieMatrix (some ⟨1, 1, 1, [-fltEpsilon, 0, 0, 0]⟩)
       (some 0) none none false = true ∧
     validateVector (some [-fltEpsilon]) 1 (some 0) none = false) := by
  refine ⟨fun n lower upper => rfl, ?_, fun n lower upper => rfl, ?_,
    by norm_num [validateScrappieMatrix, ScrappieMatrix.at, List.range_succ, fltEpsilon],
    by norm_num [validateVector, List.range_succ, fltEpsilon]⟩
  · intro v n lower upper
    cases lower with
    | none =>
      cases upper with
      | none => simp [validateVector]
      | some up => simp [validateVector, List.mem_range]
    | some lo =>
      cases upper with
      | none => simp [validateVector, List.mem_range]
      | some up =>
        simp [validateVector, List.mem_range]
        constructor
        · intro h
          by_cases ha : ∀ x < n, lo ≤ v[x]?.getD 0
          · obtain ⟨i, hi, hv⟩ := h ha
            exact ⟨i, hi, Or.inr hv⟩
          · push_neg at ha
            obtain ⟨i, hi, hv⟩ := ha
            exact ⟨i, hi, Or.inl hv⟩
        · rintro ⟨i, hi, hv | hv⟩
          · intro ha
            exact absurd (ha i hi) (not_le.mpr hv)
          · intro _
            exact ⟨i, hi, hv⟩
  · intro v n lower upper
    simp [validateIVector, List.mem_range]
    constructor
    · intro h
      by_cases ha : ∀ x < n, lower ≤ v[x]?.getD 0
      · obtain ⟨i, hi, hv⟩ := h ha
        exact ⟨i, hi, Or.inr hv⟩
      · push_neg at ha
        obtain ⟨i, hi, hv⟩ := ha
        exact ⟨i, hi, Or.inl hv⟩
    · rintro ⟨i, hi, hv | hv⟩
      · intro ha
        exact absurd (ha i hi) (not_le.mpr hv)
      · intro _
        exact ⟨i, hi, hv⟩

/-- C10 witness: an absent vector fails; `[5, -3]` with bounds `[0, 10]`
fails both validators exactly at the element `-3 < 0`; the matrix
validator accepts the value `-FLT_EPSILON` against lower bound `0`. -/
theorem validate_vector_exact_bounds_c10_witness :
    validateVector none 3 (some 0) (some 1) = false ∧
    validateVector (some [(5 : Rat), -3]) 2 (some 0) (some 10) = false ∧
    validateIVector (some [(5 : Int), -3]) 2 0 10 = false ∧
    validateScrappieMatrix (some ⟨1, 1, 1, [-fltEpsilon, 0, 0, 0]⟩)
      (some 0) none none false = true :=
  ⟨validate_vector_exact_bounds_c10.1 3 (some 0) (some 1),
   (validate_vector_exact_bounds_c10.2.1 [(5 : Rat), -3] 2 (some 0) (some 10)).mpr
     ⟨1, by decide, Or.inl ⟨0, rfl, by decide⟩⟩,
   (validate_vector_exact_bounds_c10.2.2.2.1 [(5 : Int), -3] 2 0 10).mpr
     ⟨1, by decide, Or.inl (by decide)⟩,
   validate_vector_exact_bounds_c10.2.2.2.2.1⟩

/-- C1 (code bug): on the column-major matrix `[[1,5],[3,2]]`
(`nr=2, nc=2`, flat buffer `[1,3,0,0,5,2,0,0]`), `min_scrappie_matrix`
returns `5` — the maximum, whose least logical element is `1` at flat
offset `0` — and `argmin_scrappie_matrix` returns offset `4`, because
both compare with `amin < value` exactly as the max variants do.  The
absent-input sentinels (`NAN` for min, `-1` for argmin) do hold. -/
theorem min_scrappie_matrix_reports_maximum_c1 :
    minScrappieMatrix (matFromArray 64 [1, 3, 5, 2] 2 2) = some 5 ∧
    argminScrappieMatrix (matFromArray 64 [1, 3, 5, 2] 2 2) = 4 ∧
    (matFromArray 64 [1, 3, 5, 2] 2 2).map (fun m => m.at 0) = some 1 ∧
    ((1 : Rat) < 5) ∧
    minScrappieMatrix none = none ∧
    argminScrappieMatrix none = -1 := by
  refine ⟨by decide, by decide, by decide, by norm_num, rfl, rfl⟩

end Scrappie
